import Mathlib

/-!
Shallow embedding of `my_tfx_pipeline/fraud_detection_pipeline.py`.

The repository is the wiring of a TFX pipeline: `create_pipeline` builds nine
components (CsvExampleGen, StatisticsGen, SchemaGen, ExampleValidator,
Transform, Trainer, a latest-blessed-model Resolver, Evaluator, Pusher),
connects them through typed artifact channels, and assembles them into a
`tfx.dsl.Pipeline` with caching enabled.  The wiring — which component reads
which output channel of which other component, the evaluation threshold
configuration, the push destination — is embedded directly from the source.
The semantics of the TFX library the wiring runs on (the evaluator's blessing
decision, the pusher's conditional copy, the latest-blessed-model resolution
strategy, DAG assembly and its topological execution order) is not part of the
repository's files and is modelled from the specification, as marked on each
such definition.
-/

namespace TFX

/-- A typed reference to the artifact produced under output name `output` by
the component with id `producer`; mirrors `component.outputs[name]` in the
source. -/
structure Channel where
  producer : String
  output : String
deriving Repr, DecidableEq

/-- A whole-dataset slice is `tfma.SlicingSpec()` with no feature keys;
mirrors `tfma.SlicingSpec` as used in the source. -/
structure SlicingSpec where
  feature_keys : List String := []
deriving Repr, DecidableEq

/-- Mirrors `tfma.GenericValueThreshold`: absolute bounds on a metric value. -/
structure GenericValueThreshold where
  lower_bound : Option ℚ := none
  upper_bound : Option ℚ := none
deriving Repr, DecidableEq

/-- Mirrors `tfma.GenericChangeThreshold`: bounds on the difference between
the candidate's metric value and the baseline's. -/
structure GenericChangeThreshold where
  absolute_lower : Option ℚ := none
  absolute_upper : Option ℚ := none
deriving Repr, DecidableEq

/-- Mirrors `tfma.MetricThreshold`: an optional absolute value threshold and
an optional relative-to-baseline change threshold. -/
structure MetricThreshold where
  value_threshold : Option GenericValueThreshold := none
  change_threshold : Option GenericChangeThreshold := none
deriving Repr, DecidableEq

/-- Mirrors `tfma.PerSliceMetricThreshold`: one threshold applied over a list
of slices. -/
structure PerSliceMetricThreshold where
  slicing_specs : List SlicingSpec
  threshold : MetricThreshold
deriving Repr, DecidableEq

/-- Mirrors `tfma.PerSliceMetricThresholds`. -/
structure PerSliceMetricThresholds where
  thresholds : List PerSliceMetricThreshold
deriving Repr, DecidableEq

/-- Mirrors `tfma.MetricsSpec`: metric name to per-slice thresholds. -/
structure MetricsSpec where
  per_slice_thresholds : List (String × PerSliceMetricThresholds)
deriving Repr, DecidableEq

/-- Mirrors `tfma.ModelSpec`. -/
structure ModelSpec where
  label_key : String
deriving Repr, DecidableEq

/-- Mirrors `tfma.EvalConfig`. -/
structure EvalConfig where
  model_specs : List ModelSpec
  slicing_specs : List SlicingSpec
  metrics_specs : List MetricsSpec
deriving Repr, DecidableEq

/-- A pipeline component: its id, its named input channels, and the
configuration payload the source passes to it.  Fields unused by a component
stay at their defaults. -/
structure Component where
  id : String
  inputs : List (String × Channel) := []
  params : List (String × String) := []
  module_file : Option String := none
  custom_config : List (String × Nat) := []
  strategy_class : Option String := none
  evalCfg : Option EvalConfig := none
  push_destination : Option String := none
deriving Repr, DecidableEq

/-- The output channel of a component under a given name; mirrors
`component.outputs[name]`. -/
def outChan (c : Component) (name : String) : Channel :=
  ⟨c.id, name⟩

/-- The input channel of a component under a given name. -/
def inputChan (c : Component) (n : String) : Option Channel :=
  c.inputs.lookup n

/-- Mirrors the `tfx.dsl.Pipeline(...)` constructor call: the unexecuted
pipeline object `create_pipeline` returns. -/
structure TfxPipeline where
  pipeline_name : String
  pipeline_root : String
  components : List Component
  metadata_connection_config : String
  enable_cache : Bool
deriving Repr, DecidableEq

namespace pipeline_configs

/-- Modelled from the spec: the repository imports a `pipeline_configs`
module (module-level constants `SERVING_MODEL_DIR`, `BATCH_SIZE`,
`DATASET_SIZE`) that is not among the repository files; the spec lists them
in the configuration surface.  The concrete values are unknown, so arbitrary
representatives are fixed here; no theorem depends on the particular values,
only on the fact that the wiring uses these constants. -/
def SERVING_MODEL_DIR : String := "serving_model/fraud_detection"

/-- Modelled from the spec: see `pipeline_configs.SERVING_MODEL_DIR`. -/
def BATCH_SIZE : Nat := 64

/-- Modelled from the spec: see `pipeline_configs.SERVING_MODEL_DIR`. -/
def DATASET_SIZE : Nat := 284807

end pipeline_configs

/-- The `eval_config` literal of the source (lines 90–103): label column
`Class`, one whole-dataset slicing spec, and a single per-slice threshold on
`binary_accuracy` with value lower bound 0.6 over the whole-dataset slice. -/
def eval_config : EvalConfig :=
  { model_specs := [{ label_key := "Class" }],
    slicing_specs := [{}],
    metrics_specs :=
      [{ per_slice_thresholds :=
          [("binary_accuracy",
            { thresholds :=
                [{ slicing_specs := [{}],
                   threshold :=
                     { value_threshold :=
                         some { lower_bound := some (6/10 : ℚ) } } }] })] }] }

/-- The source's `create_pipeline` (lines 23–136): builds the nine components
with their channel wiring and returns the `tfx.dsl.Pipeline` object with the
declared components list and `enable_cache=True`. -/
def create_pipeline (data_location : String) (pipeline_name : String)
    (pipeline_root : String) (transform_fn_file : String)
    (trainer_fn_file : String) (local_connection_config : String) :
    TfxPipeline :=
  let example_gen : Component :=
    { id := "CsvExampleGen",
      params := [("input_base", data_location)] }
  let statistics_gen : Component :=
    { id := "StatisticsGen",
      inputs := [("examples", outChan example_gen "examples")] }
  let schema_gen : Component :=
    { id := "SchemaGen",
      inputs := [("statistics", outChan statistics_gen "statistics")] }
  let example_validator : Component :=
    { id := "ExampleValidator",
      inputs := [("statistics", outChan statistics_gen "statistics"),
                 ("schema", outChan schema_gen "schema")] }
  let transform : Component :=
    { id := "Transform",
      inputs := [("schema", outChan schema_gen "schema"),
                 ("examples", outChan example_gen "examples")],
      module_file := some transform_fn_file }
  let trainer : Component :=
    { id := "Trainer",
      inputs := [("examples", outChan transform "transformed_examples"),
                 ("transform_graph", outChan transform "transform_graph")],
      module_file := some trainer_fn_file,
      custom_config := [("batch_size", pipeline_configs.BATCH_SIZE),
                        ("dataset_size", pipeline_configs.DATASET_SIZE)] }
  let model_resolver : Component :=
    { id := "latest_blessed_model_resolver",
      strategy_class := some "LatestBlessedModelStrategy" }
  let evaluator : Component :=
    { id := "Evaluator",
      inputs := [("examples", outChan example_gen "examples"),
                 ("model", outChan trainer "model"),
                 ("baseline_model", outChan model_resolver "model")],
      evalCfg := some eval_config }
  let pusher : Component :=
    { id := "Pusher",
      inputs := [("model", outChan trainer "model"),
                 ("model_blessing", outChan evaluator "blessing")],
      push_destination := some pipeline_configs.SERVING_MODEL_DIR }
  { pipeline_name := pipeline_name,
    pipeline_root := pipeline_root,
    components := [example_gen, statistics_gen, schema_gen,
                   example_validator, transform, trainer, pusher,
                   model_resolver, evaluator],
    metadata_connection_config := local_connection_config,
    enable_cache := true }

/-! ### Evaluator semantics (spec §4.4) -/

/-- The evaluator's terminal states. -/
inductive BlessState where
  | BLESSED
  | REJECTED
deriving Repr, DecidableEq

/-- Fatal evaluation failure, distinct from a threshold rejection. -/
inductive EvalError where
  | MetricComputationError (metric : String)
deriving Repr, DecidableEq

/-- The computed metric values of a model: metric name and slice to value,
`none` when the metric cannot be computed over that slice. -/
abbrev Metrics : Type :=
  String → SlicingSpec → Option ℚ

/-- Modelled from the spec: an absolute value threshold passes iff the value
is at least the lower bound (when set) and at most the upper bound (when
set). -/
def valuePasses (t : GenericValueThreshold) (v : ℚ) : Bool :=
  (match t.lower_bound with
   | some lb => decide (lb ≤ v)
   | none => true) &&
  (match t.upper_bound with
   | some ub => decide (v ≤ ub)
   | none => true)

/-- Modelled from the spec: a relative-to-baseline threshold bounds
`value - baseline_value`; when there is no baseline value to compare
against it degrades gracefully to a pass. -/
def changePasses (t : GenericChangeThreshold) (v : ℚ) (b : Option ℚ) : Bool :=
  match b with
  | none => true
  | some bv =>
    (match t.absolute_lower with
     | some lb => decide (lb ≤ v - bv)
     | none => true) &&
    (match t.absolute_upper with
     | some ub => decide (v - bv ≤ ub)
     | none => true)

/-- Modelled from the spec: a metric threshold passes iff its absolute part
and its relative part both pass. -/
def thresholdPasses (t : MetricThreshold) (v : ℚ) (b : Option ℚ) : Bool :=
  (match t.value_threshold with
   | some vt => valuePasses vt v
   | none => true) &&
  (match t.change_threshold with
   | some ct => changePasses ct v b
   | none => true)

/-- All (metric, slice, threshold) triples an `EvalConfig` configures. -/
def configuredThresholds (cfg : EvalConfig) :
    List (String × SlicingSpec × MetricThreshold) :=
  cfg.metrics_specs.flatMap (fun ms =>
    ms.per_slice_thresholds.flatMap (fun nt =>
      nt.2.thresholds.flatMap (fun pst =>
        pst.slicing_specs.map (fun sl => (nt.1, sl, pst.threshold)))))

/-- The baseline's value for a metric and slice, when a baseline exists. -/
def baselineValue (b : Option Metrics) (n : String) (sl : SlicingSpec) :
    Option ℚ :=
  b.bind (fun bm => bm n sl)

/-- Modelled from the spec: check every configured (metric, slice, threshold)
triple; a metric that cannot be computed is a fatal
`MetricComputationError`, a computed metric failing its bound turns the
terminal state to `REJECTED`, and `BLESSED` remains only when every triple
passes. -/
def checkThresholds (m : Metrics) (b : Option Metrics) :
    List (String × SlicingSpec × MetricThreshold) →
    Except EvalError BlessState
  | [] => .ok .BLESSED
  | (n, sl, t) :: rest =>
    match m n sl with
    | none => .error (.MetricComputationError n)
    | some v =>
      match checkThresholds m b rest with
      | .error e => .error e
      | .ok st =>
        if thresholdPasses t v (baselineValue b n sl) then .ok st
        else .ok .REJECTED

/-- Modelled from the spec: the evaluator computes each configured metric
over each configured slice and emits a blessing that is `BLESSED` iff every
configured threshold passes. -/
def evaluate (cfg : EvalConfig) (m : Metrics) (b : Option Metrics) :
    Except EvalError BlessState :=
  checkThresholds m b (configuredThresholds cfg)

/-- The whole-dataset slice. -/
def overallSlice : SlicingSpec := {}

/-- A candidate whose only computable metric is `binary_accuracy = 0.62`
over every slice. -/
def candidate62 : Metrics :=
  fun n _ => if n = "binary_accuracy" then some (62/100 : ℚ) else none

/-- A candidate whose only computable metric is `binary_accuracy = 0.55`
over every slice. -/
def candidate55 : Metrics :=
  fun n _ => if n = "binary_accuracy" then some (55/100 : ℚ) else none

/-! ### Latest-blessed-model resolver semantics (spec §4.3) -/

/-- One prior completed run recorded in the metadata store: its run id, the
creation timestamp of its model artifact, the model and blessing artifact
ids, and the blessing's boolean value. -/
structure RunRecord where
  run_id : Nat
  timestamp : Nat
  model : Nat
  blessing_artifact : Nat
  blessed : Bool
deriving Repr, DecidableEq

/-- The metadata store's view of the prior completed runs of one named
pipeline. -/
abbrev MetadataStore : Type :=
  List RunRecord

/-- Record `a` wins over record `b` under the latest-blessed strategy:
strictly more recent timestamp, or equal timestamps and a higher run id. -/
def newer (a b : RunRecord) : Bool :=
  decide (b.timestamp < a.timestamp) ||
    (decide (a.timestamp = b.timestamp) && decide (b.run_id < a.run_id))

/-- Modelled from the spec: among the runs whose blessing is true, select
the one with the most recent creation timestamp, ties broken by highest run
id; `none` when no blessed run exists. -/
def latestBlessed : MetadataStore → Option RunRecord
  | [] => none
  | r :: rest =>
    match latestBlessed rest with
    | none => if r.blessed then some r else none
    | some b => if r.blessed && newer r b then some r else some b

/-- The resolver's two output channels, resolved against the store. -/
structure ResolvedBaseline where
  model : Option Nat
  model_blessing : Option Nat
deriving Repr, DecidableEq

/-- Modelled from the spec: bind the selected run's model artifact to the
`model` output channel and its blessing artifact to the `model_blessing`
output channel; both empty when no blessed run exists (a valid outcome, not
an error). -/
def resolveLatestBlessed (store : MetadataStore) : ResolvedBaseline :=
  match latestBlessed store with
  | none => ⟨none, none⟩
  | some r => ⟨some r.model, some r.blessing_artifact⟩

/-! ### Conditional publisher semantics (spec §4.5) -/

/-- A filesystem as a map from destination path to the deployed model
artifact id. -/
abbrev FileSystem : Type :=
  String → Option Nat

/-- Modelled from the spec: resolve the blessing; iff its terminal state is
`BLESSED`, copy the model artifact to the destination; otherwise perform no
filesystem action.  Both outcomes exit normally (`.ok`), an unblessed model
being an expected outcome. -/
def publish (blessing : BlessState) (model : Nat) (dest : String)
    (fs : FileSystem) : Except String FileSystem :=
  match blessing with
  | .BLESSED => .ok (fun p => if p = dest then some model else fs p)
  | .REJECTED => .ok fs

/-! ### Pipeline assembly and execution order (spec §4.6) -/

/-- Assembly failures: a fatal error reported before any execution. -/
inductive AssemblyError where
  | DanglingChannelError (stage : String) (producer : String)
  | CyclicDependencyError
deriving Repr, DecidableEq

/-- The ids of the declared components. -/
def stageIds (cs : List Component) : List String :=
  cs.map Component.id

/-- The producer of the first input channel of `c` whose producer is not
among `ids`, when one exists. -/
def danglingIn (ids : List String) (c : Component) : Option String :=
  (c.inputs.find? (fun nc => decide (nc.2.producer ∉ ids))).map
    (fun nc => nc.2.producer)

/-- The first component (in declaration order) with a dangling input
channel, paired with the offending producer id. -/
def findDanglingAux (ids : List String) :
    List Component → Option (String × String)
  | [] => none
  | c :: rest =>
    match danglingIn ids c with
    | some p => some (c.id, p)
    | none => findDanglingAux ids rest

/-- Modelled from the spec: a dangling channel is an input channel whose
producer is not in the stage list (forward references to later-declared
stages are allowed, so the full id list is consulted). -/
def findDangling (cs : List Component) : Option (String × String) :=
  findDanglingAux (stageIds cs) cs

/-- A component is ready once every producer of its inputs has executed. -/
def ready (done : List String) (c : Component) : Bool :=
  c.inputs.all (fun nc => decide (nc.2.producer ∈ done))

/-- Pick the first ready component in declaration order, returning it and
the rest of the declaration order unchanged — the stable choice that
reorders only when a true dependency forces it. -/
def pickReady (done : List String) :
    List Component → Option (Component × List Component)
  | [] => none
  | c :: rest =>
    if ready done c then some (c, rest)
    else
      match pickReady done rest with
      | some (d, rest2) => some (d, c :: rest2)
      | none => none

/-- Modelled from the spec: repeatedly schedule the first ready component in
declaration order; `none` when the remaining components can never all be
scheduled (a cycle). -/
def topoAux : Nat → List String → List Component → Option (List String)
  | _, _, [] => some []
  | 0, _, _ :: _ => none
  | Nat.succ n, done, cs =>
    match pickReady done cs with
    | none => none
    | some (c, rest) =>
      (topoAux n (c.id :: done) rest).map (fun t => c.id :: t)

/-- The assembled, frozen pipeline: the declared components plus the
deterministic topological execution order. -/
structure AssembledPipeline where
  pipeline_name : String
  pipeline_root : String
  components : List Component
  execution_order : List String
  metadata_connection_config : String
  enable_cache : Bool
deriving Repr, DecidableEq

/-- Modelled from the spec: validate full DAG connectivity (failing with
`DanglingChannelError` when an input channel's producer is absent), assign
the deterministic stable topological execution order (failing with
`CyclicDependencyError` when none exists), and freeze the structure. -/
def assemble (p : TfxPipeline) : Except AssemblyError AssembledPipeline :=
  match findDangling p.components with
  | some (s, d) => .error (.DanglingChannelError s d)
  | none =>
    match topoAux p.components.length [] p.components with
    | none => .error .CyclicDependencyError
    | some ord =>
      .ok { pipeline_name := p.pipeline_name,
            pipeline_root := p.pipeline_root,
            components := p.components,
            execution_order := ord,
            metadata_connection_config := p.metadata_connection_config,
            enable_cache := p.enable_cache }

/-- A list of components is linearizable over the already-executed ids
`done` when, taken in this order, every component's input producers have all
executed by the time it runs.  Acyclicity of a stage list is the existence
of a linearizable permutation — exactly the existence of a topological
order. -/
def Linearizable (done : List String) : List Component → Prop
  | [] => True
  | c :: rest =>
    (∀ nc ∈ c.inputs, nc.2.producer ∈ done) ∧
      Linearizable (c.id :: done) rest

/-- No input channel of any component lacks its producer in the list. -/
def NoDangling (cs : List Component) : Prop :=
  ∀ c ∈ cs, ∀ nc ∈ c.inputs, nc.2.producer ∈ stageIds cs

/-! ### Anomaly propagation policy (spec §7, validation-halt) -/

/-- Severity of a detected schema anomaly. -/
inductive Severity where
  | WARNING
  | FATAL
deriving Repr, DecidableEq

/-- A schema anomaly detected by the validator, on the Examples channel it
offends. -/
structure Anomaly where
  severity : Severity
  offending : Channel
deriving Repr, DecidableEq

/-- A propagation policy maps each anomaly severity to whether downstream
propagation halts.  It is configuration, not a hardcoded stop. -/
abbrev HaltPolicy : Type :=
  Severity → Bool

/-- Modelled from the spec: by default every detected anomaly halts
downstream propagation, whatever its severity. -/
def defaultHaltPolicy : HaltPolicy :=
  fun _ => true

/-- Whether a component consumes a given channel among its inputs. -/
def consumes (c : Component) (ch : Channel) : Bool :=
  c.inputs.any (fun nc => decide (nc.2 = ch))

/-- Modelled from the spec: a stage proceeds in a run unless some detected
anomaly has a halting severity under the policy and the stage consumes the
offending Examples channel. -/
def proceeds (policy : HaltPolicy) (anomalies : List Anomaly)
    (c : Component) : Bool :=
  ! anomalies.any (fun a => policy a.severity && consumes c a.offending)

/-! ### Helper lemmas -/

theorem checkThresholds_ok_blessed_iff (m : Metrics) (b : Option Metrics) :
    ∀ L, checkThresholds m b L = .ok .BLESSED ↔
      ∀ e ∈ L, ∃ v, m e.1 e.2.1 = some v ∧
        thresholdPasses e.2.2 v (baselineValue b e.1 e.2.1) = true := by
  intro L
  induction L with
  | nil => simp [checkThresholds]
  | cons e rest ih =>
    obtain ⟨n, sl, t⟩ := e
    simp only [checkThresholds]
    cases hm : m n sl with
    | none => simp [hm]
    | some v =>
      cases hr : checkThresholds m b rest with
      | error e2 =>
        rw [hr] at ih
        simp only [List.forall_mem_cons]
        constructor
        · intro h
          exact absurd h (by simp)
        · intro h
          exact absurd (ih.mpr h.2) (by simp)
      | ok st =>
        rw [hr] at ih
        cases hp : thresholdPasses t v (baselineValue b n sl) with
        | false =>
          simp only [hp, if_false, List.forall_mem_cons, Bool.false_eq_true,
            if_neg]
          constructor
          · intro h
            exact absurd h (by simp)
          · intro h
            obtain ⟨⟨w, hw, hwp⟩, _⟩ := h
            rw [hm] at hw
            cases hw
            rw [hp] at hwp
            exact absurd hwp (by simp)
        | true =>
          simp only [hp, if_true, List.forall_mem_cons]
          constructor
          · intro h
            refine ⟨⟨v, hm, hp⟩, ih.mp ?_⟩
            rw [← h]
          · intro h
            rw [ih.mpr h.2]

theorem checkThresholds_terminal (m : Metrics) (b : Option Metrics) :
    ∀ L, (∀ e ∈ L, (m e.1 e.2.1).isSome = true) →
      checkThresholds m b L = .ok .BLESSED ∨
        checkThresholds m b L = .ok .REJECTED := by
  intro L
  induction L with
  | nil => simp [checkThresholds]
  | cons e rest ih =>
    obtain ⟨n, sl, t⟩ := e
    intro h
    rw [List.forall_mem_cons] at h
    obtain ⟨v, hv⟩ := Option.isSome_iff_exists.mp h.1
    simp only [checkThresholds, hv]
    rcases ih h.2 with hr | hr <;> rw [hr] <;>
      cases hp : thresholdPasses t v (baselineValue b n sl) <;> simp [hp]

theorem latestBlessed_mem_blessed :
    ∀ (store : MetadataStore) (r : RunRecord), latestBlessed store = some r →
      r ∈ store ∧ r.blessed = true := by
  intro store
  induction store with
  | nil => simp [latestBlessed]
  | cons x rest ih =>
    intro r h
    simp only [latestBlessed] at h
    cases hr : latestBlessed rest with
    | none =>
      rw [hr] at h
      dsimp only at h
      cases hb : x.blessed <;> rw [hb] at h <;> simp at h
      cases h
      exact ⟨List.mem_cons_self x rest, hb⟩
    | some b =>
      rw [hr] at h
      dsimp only at h
      obtain ⟨hbm, hbb⟩ := ih b hr
      by_cases hc : (x.blessed && newer x b) = true
      · rw [if_pos hc] at h
        rw [Bool.and_eq_true] at hc
        injection h with h2
        subst h2
        exact ⟨List.mem_cons_self x rest, hc.1⟩
      · rw [if_neg hc] at h
        injection h with h2
        subst h2
        exact ⟨List.mem_cons_of_mem x hbm, hbb⟩

theorem latestBlessed_none_iff (store : MetadataStore) :
    latestBlessed store = none ↔ ∀ x ∈ store, x.blessed = false := by
  induction store with
  | nil => simp [latestBlessed]
  | cons r rest ih =>
    simp only [latestBlessed, List.forall_mem_cons]
    cases hr : latestBlessed rest with
    | none =>
      rw [hr] at ih
      cases hb : r.blessed <;> simp [hb, ← ih]
    | some b =>
      obtain ⟨hbm, hbb⟩ := latestBlessed_mem_blessed rest b hr
      constructor
      · intro h
        dsimp only at h
        split at h <;> simp at h
      · intro h
        exact absurd (h.2 b hbm) (by simp [hbb])

theorem latestBlessed_maximal :
    ∀ (store : MetadataStore) (r : RunRecord), latestBlessed store = some r →
      ∀ x ∈ store, x.blessed = true →
        x.timestamp < r.timestamp ∨
          (x.timestamp = r.timestamp ∧ x.run_id ≤ r.run_id) := by
  intro store
  induction store with
  | nil => simp [latestBlessed]
  | cons y rest ih =>
    intro r h x hx hxb
    simp only [latestBlessed] at h
    cases hr : latestBlessed rest with
    | none =>
      rw [hr] at h
      dsimp only at h
      have hrest := (latestBlessed_none_iff rest).mp hr
      rcases List.mem_cons.mp hx with hxy | hxr
      · rw [hxy] at hxb
        rw [if_pos hxb] at h
        injection h with h2
        rw [hxy, h2]
        omega
      · exact absurd hxb (by simp [hrest x hxr])
    | some b =>
      rw [hr] at h
      dsimp only at h
      by_cases hc : (y.blessed && newer y b) = true
      · rw [if_pos hc] at h
        injection h with h2
        rw [Bool.and_eq_true] at hc
        have hnb := hc.2
        simp only [newer, Bool.or_eq_true, Bool.and_eq_true,
          decide_eq_true_eq] at hnb
        rw [← h2]
        rcases List.mem_cons.mp hx with hxy | hxr
        · rw [hxy]
          omega
        · have hxle := ih b hr x hxr hxb
          omega
      · rw [if_neg hc] at h
        injection h with h2
        rw [← h2]
        rcases List.mem_cons.mp hx with hxy | hxr
        · have hc2 : ¬ newer y b = true := by
            intro hn
            rw [hxy] at hxb
            exact hc (by rw [Bool.and_eq_true]; exact ⟨hxb, hn⟩)
          simp only [newer, Bool.or_eq_true, Bool.and_eq_true,
            decide_eq_true_eq] at hc2
          rw [hxy]
          omega
        · exact ih b hr x hxr hxb

theorem ready_iff (done : List String) (c : Component) :
    ready done c = true ↔ ∀ nc ∈ c.inputs, nc.2.producer ∈ done := by
  simp [ready, List.all_eq_true]

theorem pickReady_sound (done : List String) :
    ∀ (cs rest : List Component) (c : Component),
      pickReady done cs = some (c, rest) →
        ready done c = true ∧ cs.Perm (c :: rest) := by
  intro cs
  induction cs with
  | nil =>
    intro rest c h
    simp [pickReady] at h
  | cons d cs2 ih =>
    intro rest c h
    simp only [pickReady] at h
    by_cases hd : ready done d = true
    · rw [if_pos hd] at h
      simp only [Option.some.injEq, Prod.mk.injEq] at h
      obtain ⟨rfl, rfl⟩ := h
      exact ⟨hd, List.Perm.refl _⟩
    · rw [if_neg hd] at h
      cases hp : pickReady done cs2 with
      | none =>
        rw [hp] at h
        exact absurd h (by simp)
      | some pr =>
        obtain ⟨e, rest2⟩ := pr
        rw [hp] at h
        dsimp only at h
        simp only [Option.some.injEq, Prod.mk.injEq] at h
        obtain ⟨h1, h2⟩ := h
        subst h1
        subst h2
        obtain ⟨he, hperm⟩ := ih rest2 e hp
        exact ⟨he, (hperm.cons d).trans (List.Perm.swap e d rest2)⟩

theorem pickReady_isSome (done : List String) :
    ∀ cs : List Component, (∃ c ∈ cs, ready done c = true) →
      ∃ p, pickReady done cs = some p := by
  intro cs
  induction cs with
  | nil => simp
  | cons d cs2 ih =>
    rintro ⟨c, hc, hr⟩
    simp only [pickReady]
    by_cases hd : ready done d = true
    · rw [if_pos hd]
      exact ⟨(d, cs2), rfl⟩
    · rw [if_neg hd]
      rcases List.mem_cons.mp hc with rfl | hcc
      · exact absurd hr hd
      · obtain ⟨p, hp⟩ := ih ⟨c, hcc, hr⟩
        rw [hp]
        obtain ⟨e, rest2⟩ := p
        exact ⟨(e, d :: rest2), rfl⟩

theorem Linearizable_mono :
    ∀ (π : List Component) (d1 d2 : List String),
      (∀ x ∈ d1, x ∈ d2) → Linearizable d1 π → Linearizable d2 π := by
  intro π
  induction π with
  | nil =>
    intro d1 d2 hsub h
    trivial
  | cons c π2 ih =>
    intro d1 d2 hsub h
    obtain ⟨h1, h2⟩ := h
    refine ⟨fun nc hnc => hsub _ (h1 nc hnc), ?_⟩
    refine ih (c.id :: d1) (c.id :: d2) ?_ h2
    intro x hx
    rcases List.mem_cons.mp hx with rfl | hx2
    · exact List.mem_cons_self _ _
    · exact List.mem_cons_of_mem _ (hsub x hx2)

theorem Linearizable_erase :
    ∀ (π : List Component) (done : List String) (c : Component), c ∈ π →
      Linearizable done π → Linearizable (c.id :: done) (π.erase c) := by
  intro π
  induction π with
  | nil =>
    intro done c hc
    simp at hc
  | cons p π2 ih =>
    intro done c hc h
    obtain ⟨h1, h2⟩ := h
    by_cases hpc : p = c
    · subst hpc
      rw [List.erase_cons_head]
      exact h2
    · have hc2 : c ∈ π2 := by
        rcases List.mem_cons.mp hc with h' | h'
        · exact absurd h'.symm hpc
        · exact h'
      rw [List.erase_cons_tail]
      · refine ⟨fun nc hnc => List.mem_cons_of_mem _ (h1 nc hnc), ?_⟩
        refine Linearizable_mono _ _ _ ?_ (ih (p.id :: done) c hc2 h2)
        intro x hx
        simp only [List.mem_cons] at hx ⊢
        tauto
      · simp [hpc]

theorem topoAux_succeeds :
    ∀ (n : Nat) (cs : List Component) (done : List String)
      (π : List Component), cs.length ≤ n → cs.Perm π → Linearizable done π →
        ∃ ord, topoAux n done cs = some ord := by
  intro n
  induction n with
  | zero =>
    intro cs done π hlen hperm hlin
    have hnil : cs = [] := List.length_eq_zero.mp (Nat.le_zero.mp hlen)
    subst hnil
    exact ⟨[], rfl⟩
  | succ n ih =>
    intro cs done π hlen hperm hlin
    cases cs with
    | nil => exact ⟨[], rfl⟩
    | cons c0 cs2 =>
      cases hπ : π with
      | nil =>
        rw [hπ] at hperm
        have := hperm.length_eq
        simp at this
      | cons p π2 =>
        rw [hπ] at hperm hlin
        obtain ⟨hp1, hp2⟩ := hlin
        have hready : ready done p = true := (ready_iff done p).mpr hp1
        have hpmem : p ∈ c0 :: cs2 :=
          hperm.mem_iff.mpr (List.mem_cons_self p π2)
        obtain ⟨⟨c, rest⟩, hpick⟩ :=
          pickReady_isSome done (c0 :: cs2) ⟨p, hpmem, hready⟩
        obtain ⟨hcready, hcperm⟩ := pickReady_sound done (c0 :: cs2) rest c hpick
        have hcmem : c ∈ p :: π2 :=
          hperm.mem_iff.mp (hcperm.mem_iff.mpr (List.mem_cons_self c rest))
        have hπperm : (c :: rest).Perm (c :: ((p :: π2).erase c)) :=
          hcperm.symm.trans (hperm.trans (List.perm_cons_erase hcmem))
        have hrest : rest.Perm ((p :: π2).erase c) := hπperm.cons_inv
        have hlin2 : Linearizable (c.id :: done) ((p :: π2).erase c) :=
          Linearizable_erase _ done c hcmem ⟨hp1, hp2⟩
        have hlen2 : rest.length ≤ n := by
          have hl := hcperm.length_eq
          simp only [List.length_cons] at hl hlen
          omega
        obtain ⟨t, ht⟩ := ih rest (c.id :: done) _ hlen2 hrest hlin2
        refine ⟨c.id :: t, ?_⟩
        simp only [topoAux, hpick, ht]
        rfl

theorem topoAux_sound :
    ∀ (n : Nat) (cs : List Component) (done : List String)
      (ord : List String), topoAux n done cs = some ord →
        ∃ π, cs.Perm π ∧ ord = π.map Component.id ∧ Linearizable done π := by
  intro n
  induction n with
  | zero =>
    intro cs done ord h
    cases cs with
    | nil =>
      simp only [topoAux, Option.some.injEq] at h
      exact ⟨[], h ▸ ⟨List.Perm.refl _, rfl, trivial⟩⟩
    | cons c0 cs2 => exact absurd h (by simp [topoAux])
  | succ n ih =>
    intro cs done ord h
    cases cs with
    | nil =>
      simp only [topoAux, Option.some.injEq] at h
      exact ⟨[], h ▸ ⟨List.Perm.refl _, rfl, trivial⟩⟩
    | cons c0 cs2 =>
      simp only [topoAux] at h
      cases hpick : pickReady done (c0 :: cs2) with
      | none =>
        rw [hpick] at h
        simp at h
      | some pr =>
        obtain ⟨c, rest⟩ := pr
        rw [hpick] at h
        dsimp only at h
        cases ht : topoAux n (c.id :: done) rest with
        | none =>
          rw [ht] at h
          simp at h
        | some t =>
          rw [ht] at h
          simp only [Option.map_some', Option.some.injEq] at h
          obtain ⟨hcready, hcperm⟩ :=
            pickReady_sound done (c0 :: cs2) rest c hpick
          obtain ⟨π2, hπperm, hmap, hlin⟩ := ih rest (c.id :: done) t ht
          refine ⟨c :: π2, hcperm.trans (hπperm.cons c), ?_, ?_⟩
          · rw [← h, hmap]
            rfl
          · exact ⟨(ready_iff done c).mp hcready, hlin⟩

theorem danglingIn_eq_none_iff (ids : List String) (c : Component) :
    danglingIn ids c = none ↔ ∀ nc ∈ c.inputs, nc.2.producer ∈ ids := by
  simp [danglingIn, List.find?_eq_none]

theorem findDanglingAux_eq_none (ids : List String) :
    ∀ cs : List Component,
      (∀ c ∈ cs, ∀ nc ∈ c.inputs, nc.2.producer ∈ ids) →
        findDanglingAux ids cs = none := by
  intro cs
  induction cs with
  | nil =>
    intro _
    rfl
  | cons c rest ih =>
    intro h
    rw [List.forall_mem_cons] at h
    simp only [findDanglingAux]
    rw [(danglingIn_eq_none_iff ids c).mpr h.1]
    exact ih h.2

theorem findDanglingAux_isSome (ids : List String) :
    ∀ cs : List Component,
      (∃ c ∈ cs, ∃ nc ∈ c.inputs, nc.2.producer ∉ ids) →
        ∃ sd, findDanglingAux ids cs = some sd := by
  intro cs
  induction cs with
  | nil => simp
  | cons c rest ih =>
    rintro ⟨d, hd, nc, hnc, hp⟩
    simp only [findDanglingAux]
    cases hdi : danglingIn ids c with
    | none =>
      rcases List.mem_cons.mp hd with rfl | hdr
      · exact absurd ((danglingIn_eq_none_iff ids d).mp hdi nc hnc) hp
      · exact ih ⟨d, hdr, nc, hnc, hp⟩
    | some p => exact ⟨(c.id, p), rfl⟩

theorem latestBlessed_isSome :
    ∀ store : MetadataStore, (∃ x ∈ store, x.blessed = true) →
      ∃ r, latestBlessed store = some r := by
  intro store h
  cases hr : latestBlessed store with
  | none =>
    obtain ⟨x, hx, hxb⟩ := h
    exact absurd hxb (by simp [(latestBlessed_none_iff store).mp hr x hx])
  | some r => exact ⟨r, rfl⟩

/-- The execution order the stable topological sort assigns to this
pipeline's declared components list. -/
def fraud_execution_order : List String :=
  ["CsvExampleGen", "StatisticsGen", "SchemaGen", "ExampleValidator",
   "Transform", "Trainer", "latest_blessed_model_resolver", "Evaluator",
   "Pusher"]

/-! ### Claims -/

/-- C1: the Evaluator emits a BLESSED blessing iff every (metric, slice)
pair with a configured threshold is computed and satisfies its bound; with
this pipeline's `eval_config` the only configured threshold is
`binary_accuracy` over the whole-dataset slice with lower bound 0.6, so the
candidate with `binary_accuracy = 0.62` is BLESSED and the candidate with
`binary_accuracy = 0.55` is REJECTED. -/
theorem evaluator_blessed_iff_thresholds_pass :
    (∀ (cfg : EvalConfig) (m : Metrics) (b : Option Metrics),
        evaluate cfg m b = .ok .BLESSED ↔
          ∀ e ∈ configuredThresholds cfg, ∃ v, m e.1 e.2.1 = some v ∧
            thresholdPasses e.2.2 v (baselineValue b e.1 e.2.1) = true) ∧
    configuredThresholds eval_config =
      [("binary_accuracy", overallSlice,
        { value_threshold := some { lower_bound := some (6/10 : ℚ) } })] ∧
    evaluate eval_config candidate62 none = .ok .BLESSED ∧
    evaluate eval_config candidate55 none = .ok .REJECTED := by
  refine ⟨fun cfg m b => checkThresholds_ok_blessed_iff m b _, rfl, ?_, ?_⟩
  · simp [evaluate, configuredThresholds, eval_config, checkThresholds,
      candidate62, thresholdPasses, valuePasses, baselineValue]
    norm_num
  · simp [evaluate, configuredThresholds, eval_config, checkThresholds,
      candidate55, thresholdPasses, valuePasses, baselineValue]
    norm_num

/-- C2: the publisher copies the model artifact to the destination iff the
blessing's terminal state is BLESSED; on REJECTED it leaves the filesystem
unchanged, and in either case it exits normally rather than raising an
error. -/
theorem publish_copies_iff_blessed (model : Nat) (dest : String)
    (fs : FileSystem) :
    publish .BLESSED model dest fs =
      .ok (fun p => if p = dest then some model else fs p) ∧
    publish .REJECTED model dest fs = .ok fs ∧
    (∀ b : BlessState, ∃ fs2, publish b model dest fs = .ok fs2) := by
  refine ⟨rfl, rfl, fun b => ?_⟩
  cases b
  · exact ⟨_, rfl⟩
  · exact ⟨fs, rfl⟩

/-- C3: the resolver returns a blessed run record from the store whose
(timestamp, run id) is lexicographically maximal among blessed runs, bound
to the model and model_blessing output channels; on the concrete store with
blessings false, true, true at increasing timestamps it returns the third
run's model and never the first run's. -/
theorem resolver_latest_blessed :
    (∀ (store : MetadataStore) (r : RunRecord),
        latestBlessed store = some r →
          r ∈ store ∧ r.blessed = true ∧
            ∀ x ∈ store, x.blessed = true →
              x.timestamp < r.timestamp ∨
                (x.timestamp = r.timestamp ∧ x.run_id ≤ r.run_id)) ∧
    (∀ store : MetadataStore, (∃ x ∈ store, x.blessed = true) →
        ∃ r, latestBlessed store = some r) ∧
    latestBlessed
        [⟨1, 10, 101, 201, false⟩, ⟨2, 20, 102, 202, true⟩,
         ⟨3, 30, 103, 203, true⟩] =
      some ⟨3, 30, 103, 203, true⟩ ∧
    resolveLatestBlessed
        [⟨1, 10, 101, 201, false⟩, ⟨2, 20, 102, 202, true⟩,
         ⟨3, 30, 103, 203, true⟩] =
      ⟨some 103, some 203⟩ ∧
    resolveLatestBlessed
        [⟨1, 10, 101, 201, false⟩, ⟨2, 20, 102, 202, true⟩,
         ⟨3, 30, 103, 203, true⟩] ≠
      ⟨some 101, some 201⟩ := by
  refine ⟨?_, latestBlessed_isSome, by decide, by decide, by decide⟩
  intro store r h
  obtain ⟨hm, hb⟩ := latestBlessed_mem_blessed store r h
  exact ⟨hm, hb, latestBlessed_maximal store r h⟩

/-- C4: with no prior blessed run both resolver output channels resolve to
empty (not an error); the Evaluator consuming the empty baseline still
reaches a terminal state (BLESSED or REJECTED) whenever all configured
metrics are computable, deciding on absolute thresholds only, every
relative-to-baseline threshold degrading to a pass. -/
theorem empty_baseline_graceful :
    (∀ store : MetadataStore, (∀ x ∈ store, x.blessed = false) →
        resolveLatestBlessed store = ⟨none, none⟩) ∧
    (∀ (cfg : EvalConfig) (m : Metrics),
        (∀ e ∈ configuredThresholds cfg, (m e.1 e.2.1).isSome = true) →
          evaluate cfg m none = .ok .BLESSED ∨
            evaluate cfg m none = .ok .REJECTED) ∧
    (∀ (t : GenericChangeThreshold) (v : ℚ), changePasses t v none = true) ∧
    (∀ (t : MetricThreshold) (v : ℚ),
        thresholdPasses t v none =
          thresholdPasses { value_threshold := t.value_threshold } v none) := by
  refine ⟨?_, fun cfg m h => checkThresholds_terminal m none _ h, ?_, ?_⟩
  · intro store h
    rw [resolveLatestBlessed, (latestBlessed_none_iff store).mpr h]
  · intro t v
    rfl
  · intro t v
    cases t with
    | mk vt ct =>
      cases vt <;> cases ct <;> rfl

/-- C5: `create_pipeline` wires exactly the stated dataflow: ingestion
feeds statistics, statistics feeds schema, the validator consumes
statistics and schema, the transform consumes schema and the raw examples,
the trainer consumes the transform outputs, the evaluator consumes the
trainer's model and the resolver's baseline model channel, and the pusher
consumes the trainer's model and the evaluator's blessing. -/
theorem create_pipeline_dataflow (dl pn pr tf trf lc : String) :
    ((create_pipeline dl pn pr tf trf lc).components[1]?).bind
        (fun c => inputChan c "examples") =
      some ⟨"CsvExampleGen", "examples"⟩ ∧
    ((create_pipeline dl pn pr tf trf lc).components[2]?).bind
        (fun c => inputChan c "statistics") =
      some ⟨"StatisticsGen", "statistics"⟩ ∧
    ((create_pipeline dl pn pr tf trf lc).components[3]?).bind
        (fun c => inputChan c "statistics") =
      some ⟨"StatisticsGen", "statistics"⟩ ∧
    ((create_pipeline dl pn pr tf trf lc).components[3]?).bind
        (fun c => inputChan c "schema") =
      some ⟨"SchemaGen", "schema"⟩ ∧
    ((create_pipeline dl pn pr tf trf lc).components[4]?).bind
        (fun c => inputChan c "schema") =
      some ⟨"SchemaGen", "schema"⟩ ∧
    ((create_pipeline dl pn pr tf trf lc).components[4]?).bind
        (fun c => inputChan c "examples") =
      some ⟨"CsvExampleGen", "examples"⟩ ∧
    ((create_pipeline dl pn pr tf trf lc).components[5]?).bind
        (fun c => inputChan c "examples") =
      some ⟨"Transform", "transformed_examples"⟩ ∧
    ((create_pipeline dl pn pr tf trf lc).components[5]?).bind
        (fun c => inputChan c "transform_graph") =
      some ⟨"Transform", "transform_graph"⟩ ∧
    ((create_pipeline dl pn pr tf trf lc).components[8]?).bind
        (fun c => inputChan c "model") =
      some ⟨"Trainer", "model"⟩ ∧
    ((create_pipeline dl pn pr tf trf lc).components[8]?).bind
        (fun c => inputChan c "baseline_model") =
      some ⟨"latest_blessed_model_resolver", "model"⟩ ∧
    ((create_pipeline dl pn pr tf trf lc).components[6]?).bind
        (fun c => inputChan c "model") =
      some ⟨"Trainer", "model"⟩ ∧
    ((create_pipeline dl pn pr tf trf lc).components[6]?).bind
        (fun c => inputChan c "model_blessing") =
      some ⟨"Evaluator", "blessing"⟩ :=
  ⟨rfl, rfl, rfl, rfl, rfl, rfl, rfl, rfl, rfl, rfl, rfl, rfl⟩

/-- C6: for every stage list with no dangling channels and no cycles
(existence of an order linearizing the declared channel dependencies),
assembly succeeds and assigns a topological execution order consistent with
those dependencies; for this pipeline's declared components list, in which
the pusher is declared before the model resolver and the evaluator, the
assigned order places the resolver and the evaluator before the pusher. -/
theorem assembly_topological_order :
    (∀ p : TfxPipeline, NoDangling p.components →
        (∃ π, p.components.Perm π ∧ Linearizable [] π) →
          ∃ A, assemble p = .ok A ∧
            ∃ π, p.components.Perm π ∧
              A.execution_order = π.map Component.id ∧ Linearizable [] π) ∧
    (∀ dl pn pr tf trf lc, ∃ A,
        assemble (create_pipeline dl pn pr tf trf lc) = .ok A ∧
        A.execution_order = fraud_execution_order) ∧
    fraud_execution_order.indexOf "latest_blessed_model_resolver" <
      fraud_execution_order.indexOf "Pusher" ∧
    fraud_execution_order.indexOf "Evaluator" <
      fraud_execution_order.indexOf "Pusher" := by
  refine ⟨?_, fun dl pn pr tf trf lc => ⟨_, rfl, rfl⟩, by decide, by decide⟩
  intro p hnd hac
  obtain ⟨π, hperm, hlin⟩ := hac
  have hfd : findDangling p.components = none :=
    findDanglingAux_eq_none _ _ hnd
  obtain ⟨ord, hord⟩ :=
    topoAux_succeeds p.components.length p.components [] π le_rfl hperm hlin
  have hasm : assemble p =
      .ok ⟨p.pipeline_name, p.pipeline_root, p.components, ord,
        p.metadata_connection_config, p.enable_cache⟩ := by
    unfold assemble
    rw [hfd, hord]
  obtain ⟨π2, h1, h2, h3⟩ := topoAux_sound _ _ _ _ hord
  exact ⟨_, hasm, π2, h1, h2, h3⟩

/-- C7: for every stage list containing an input channel whose producer is
absent from the list, assembly fails with a `DanglingChannelError` — the
result is an error, so no execution order is ever produced. -/
theorem dangling_channel_assembly_fails (p : TfxPipeline)
    (h : ∃ c ∈ p.components, ∃ nc ∈ c.inputs,
        nc.2.producer ∉ stageIds p.components) :
    ∃ s d, assemble p = .error (.DanglingChannelError s d) := by
  obtain ⟨⟨s, d⟩, hsd⟩ :=
    findDanglingAux_isSome (stageIds p.components) p.components h
  refine ⟨s, d, ?_⟩
  unfold assemble findDangling
  rw [hsd]

/-- C7 witness: a concrete one-stage pipeline whose only input channel
names an absent producer fails assembly with the dangling-channel error. -/
theorem dangling_channel_assembly_fails_witness :
    ∃ s d,
      assemble
          ⟨"p", "r",
           [{ id := "Orphan",
              inputs := [("examples", ⟨"Absent", "examples"⟩)] }],
           "m", true⟩ =
        .error (.DanglingChannelError s d) :=
  dangling_channel_assembly_fails
    ⟨"p", "r",
     [{ id := "Orphan", inputs := [("examples", ⟨"Absent", "examples"⟩)] }],
     "m", true⟩
    ⟨_, List.mem_cons_self _ _, _, List.mem_cons_self _ _, by decide⟩

/-- C8: under the default propagation policy, whenever the validator
detects an anomaly, every stage consuming the offending Examples channel
does not proceed; the halt is policy-driven (a policy that halts nothing
lets every stage proceed), and in this pipeline the Transform and the
Evaluator consume the raw Examples, so an anomaly on that channel stops
them by default. -/
theorem anomaly_halts_downstream_by_default :
    (∀ (anomalies : List Anomaly) (a : Anomaly), a ∈ anomalies →
        ∀ c : Component, consumes c a.offending = true →
          proceeds defaultHaltPolicy anomalies c = false) ∧
    (∀ (anomalies : List Anomaly) (c : Component),
        proceeds (fun _ => false) anomalies c = true) ∧
    (∀ (dl pn pr tf trf lc : String) (sev : Severity),
        ((create_pipeline dl pn pr tf trf lc).components[4]?).map
            (proceeds defaultHaltPolicy
              [⟨sev, ⟨"CsvExampleGen", "examples"⟩⟩]) = some false ∧
        ((create_pipeline dl pn pr tf trf lc).components[8]?).map
            (proceeds defaultHaltPolicy
              [⟨sev, ⟨"CsvExampleGen", "examples"⟩⟩]) = some false) := by
  refine ⟨?_, ?_, fun dl pn pr tf trf lc sev => ⟨rfl, rfl⟩⟩
  · intro anomalies a ha c hc
    simp only [proceeds, Bool.not_eq_false', List.any_eq_true]
    exact ⟨a, ha, by simp [defaultHaltPolicy, hc]⟩
  · intro anomalies c
    simp [proceeds]

/-- C9: the assembled pipeline feeds the Evaluator the raw examples of the
ingestion stage (CsvExampleGen), not the Transform's transformed examples,
while the Trainer consumes the transformed examples and the transform
graph produced by the Transform stage. -/
theorem evaluator_raw_trainer_transformed (dl pn pr tf trf lc : String) :
    ((create_pipeline dl pn pr tf trf lc).components[8]?).bind
        (fun c => inputChan c "examples") =
      some ⟨"CsvExampleGen", "examples"⟩ ∧
    ((create_pipeline dl pn pr tf trf lc).components[8]?).bind
        (fun c => inputChan c "examples") ≠
      some ⟨"Transform", "transformed_examples"⟩ ∧
    ((create_pipeline dl pn pr tf trf lc).components[5]?).bind
        (fun c => inputChan c "examples") =
      some ⟨"Transform", "transformed_examples"⟩ ∧
    ((create_pipeline dl pn pr tf trf lc).components[5]?).bind
        (fun c => inputChan c "transform_graph") =
      some ⟨"Transform", "transform_graph"⟩ := by
  refine ⟨rfl, ?_, rfl, rfl⟩
  intro h
  rw [show ((create_pipeline dl pn pr tf trf lc).components[8]?).bind
        (fun c => inputChan c "examples") =
      some ⟨"CsvExampleGen", "examples"⟩ from rfl] at h
  exact absurd h (by decide)

/-- C10: whatever its arguments, `create_pipeline` returns a pipeline with
caching enabled, the evaluation label column fixed to `Class`, exactly one
whole-dataset slice, exactly one metric threshold (`binary_accuracy` lower
bound 0.6), and the serving destination, batch size and dataset size taken
from the module-level `pipeline_configs` constants — none of them varies
with the function's arguments. -/
theorem fixed_configuration (dl pn pr tf trf lc : String) :
    (create_pipeline dl pn pr tf trf lc).enable_cache = true ∧
    eval_config.model_specs = [{ label_key := "Class" }] ∧
    eval_config.slicing_specs = [overallSlice] ∧
    configuredThresholds eval_config =
      [("binary_accuracy", overallSlice,
        { value_threshold := some { lower_bound := some (6/10 : ℚ) } })] ∧
    ((create_pipeline dl pn pr tf trf lc).components[8]?).map
        Component.evalCfg = some (some eval_config) ∧
    ((create_pipeline dl pn pr tf trf lc).components[6]?).map
        (fun c => c.push_destination) =
      some (some pipeline_configs.SERVING_MODEL_DIR) ∧
    ((create_pipeline dl pn pr tf trf lc).components[5]?).map
        (fun c => c.custom_config) =
      some [("batch_size", pipeline_configs.BATCH_SIZE),
            ("dataset_size", pipeline_configs.DATASET_SIZE)] :=
  ⟨rfl, rfl, rfl, rfl, rfl, rfl, rfl⟩

end TFX
